import Mathlib

/-!
Verification of the walk-forward backtesting core of the dashapp repository,
embedded shallowly from src/callbacks/backtest.py.

Numeric conventions of the embedding:
  * Python integers are modelled as ℤ (the values involved fit far below any
    machine-width concern; the np.int16 casts in the source never overflow
    since all parameter values are at most 210).
  * Python floats are modelled as ℝ where the source computes with π and atan
    (overlap_factor, window lengths), and as ℚ where the source only performs
    field arithmetic and rounding on decimal data (timeframe correction,
    metric values).
  * Python round() uses round-half-to-even; it is modelled explicitly below
    (pyRound on ℝ, pyRoundQ on ℚ) rather than by Mathlib round, which rounds
    half up.
-/

namespace Dashapp

open Real Filter Topology

/-- Python round() on a real argument: nearest integer, ties to even
(banker's rounding). Agrees with Mathlib round except at exact halves. -/
noncomputable def pyRound (x : ℝ) : ℤ :=
  if Int.fract x = 1 / 2 then (if Even ⌊x⌋ then ⌊x⌋ else ⌊x⌋ + 1) else round x

/-- Python round() on a rational argument (computable version, used where the
source rounds decimal data). -/
def pyRoundQ (x : ℚ) : ℤ :=
  if Int.fract x = 1 / 2 then (if Even ⌊x⌋ then ⌊x⌋ else ⌊x⌋ + 1) else round x

/-- Python round(x, 4): round to 4 decimal places, ties to even. -/
def roundTo4 (x : ℚ) : ℚ := (pyRoundQ (x * 10000) : ℚ) / 10000

/-- The lookup table of overlap fractions from overlap_factor
(backtest.py line 24): factors = [.375, .5, .56, .6, .625, .64]. -/
noncomputable def factors : List ℝ := [0.375, 0.5, 0.56, 0.6, 0.625, 0.64]

/-- Python list subscription l[i]: negative indices count from the end.
Off-range indices (which raise IndexError in Python) return 0 here; no claim
touches them, and overlap_factor only subscripts in range for every ℕ input. -/
noncomputable def pyGet (l : List ℝ) (i : ℤ) : ℝ :=
  if i < 0 then l.getD (l.length - (-i).toNat) 0 else l.getD i.toNat 0

/-- overlap_factor (backtest.py lines 23-28): table lookup factors[n-2] for
n < 8, closed form (13 / (9*pi)) * atan(n) otherwise. -/
noncomputable def overlap_factor (nwindows : ℕ) : ℝ :=
  if nwindows < 8 then pyGet factors ((nwindows : ℤ) - 2)
  else (13 / (9 * π)) * Real.arctan nwindows

/-- Length of numpy.arange(start, stop, step) for a positive step:
ceil((stop-start)/step) when start < stop, 0 otherwise, computed with natural
ceiling division. The source only calls arange with the literal steps 10
and 2. -/
def arangeLen (start stop step : ℤ) : ℕ :=
  if start < stop then ((stop - start).toNat + (step.toNat - 1)) / step.toNat else 0

/-- numpy.arange(start, stop, step) on integer arguments with a positive step:
the list start + k*step for 0 ≤ k < ceil((stop-start)/step). -/
def np_arange (start stop step : ℤ) : List ℤ :=
  (List.range (arangeLen start stop step)).map (fun k : ℕ => start + (k : ℤ) * step)

/-- closed_arange (backtest.py lines 31-36): builds np.arange(start, stop,
step) and appends stop when array[-1] + step <= stop. Subscripting array[-1]
on an empty numpy array raises IndexError, modelled as none. -/
def closed_arange (start stop step : ℤ) : Option (List ℤ) :=
  let array := np_arange start stop step
  array.getLast?.map
    (fun last => if last + step ≤ stop then array ++ [stop] else array)

/-- The keyword arguments built for close.vbt.rolling_split
(backtest.py lines 73-74). -/
structure WindowKwargs where
  n : ℕ
  set_lens : ℚ
  window_len : ℤ
deriving Repr

/-- window_kwargs construction (backtest.py lines 73-74):
dict(n=nwindows, set_lens=(insample / 100,),
     window_len=round(len(df) / ((1 - overlap_factor(nwindows)) * nwindows))). -/
noncomputable def window_kwargs (L : ℕ) (nwindows : ℕ) (insample : ℚ) : WindowKwargs :=
  { n := nwindows
    set_lens := insample / 100
    window_len := pyRound ((L : ℝ) / ((1 - overlap_factor nwindows) * (nwindows : ℕ))) }

/-- A timeframe string as consumed by perform_backtest: the source tests
selected_timeframe == '1d' and otherwise parses int(selected_timeframe[:-1]).
The embedding records exactly those two observations. -/
structure Timeframe where
  value : ℕ
  isDaily : Bool
deriving DecidableEq, Repr

/-- The freq argument handed to vectorbt: either the string '1d' or a string
of the form "<q>m" for a rational number of minutes q. -/
inductive TimeInterval where
  | daily : TimeInterval
  | minutes : ℚ → TimeInterval
deriving DecidableEq, Repr

/-- trading_day_conversion = 24 / 6.5 (backtest.py line 78). -/
def trading_day_conversion : ℚ := 24 / 6.5

/-- time_interval computation (backtest.py lines 79-82): '1d' is passed
through; otherwise the parsed numeric value is inflated by 24/6.5 and rounded
to 4 decimal places, expressed in minutes. -/
def time_interval (selected_timeframe : Timeframe) : TimeInterval :=
  if selected_timeframe.isDaily then TimeInterval.daily
  else TimeInterval.minutes
    (roundTo4 ((selected_timeframe.value : ℚ) * trading_day_conversion))

/-- The portfolio keyword arguments (backtest.py line 84):
dict(direction=selected_direction, freq=time_interval, init_cash=100,
fees=0.000, slippage=0.000). -/
structure PfKwargs where
  direction : String
  freq : TimeInterval
  init_cash : ℚ
  fees : ℚ
  slippage : ℚ
deriving DecidableEq, Repr

/-- pf_kwargs construction (backtest.py line 84). -/
def pf_kwargs (selected_direction : String) (freq : TimeInterval) : PfKwargs :=
  { direction := selected_direction
    freq := freq
    init_cash := 100
    fees := 0.000
    slippage := 0.000 }

example : np_arange 0 10 3 = [0, 3, 6, 9] := by decide
example : closed_arange 0 10 3 = some [0, 3, 6, 9] := by decide
example : closed_arange 10 100 10 = some [10, 20, 30, 40, 50, 60, 70, 80, 90, 100] := by decide
example : closed_arange 10 10 3 = none := by decide
/-- Characterization of pyRoundQ away from exact halves: if x lies strictly
between n - 1/2 and n + 1/2 then pyRoundQ x = n. -/
theorem pyRoundQ_eq_of (x : ℚ) (n : ℤ) (h1 : (n : ℚ) - 1 / 2 < x)
    (h2 : x < (n : ℚ) + 1 / 2) : pyRoundQ x = n := by
  have hfr : Int.fract x ≠ 1 / 2 := by
    intro h
    have hx : x = (⌊x⌋ : ℚ) + 1 / 2 := by
      have := Int.fract_add_floor x
      rw [h] at this
      linarith
    rw [hx] at h1 h2
    have hlt : (n : ℚ) - 1 < (⌊x⌋ : ℚ) := by linarith
    have hgt : (⌊x⌋ : ℚ) < (n : ℚ) := by linarith
    have hlt' : n - 1 < ⌊x⌋ := by exact_mod_cast hlt
    have hgt' : ⌊x⌋ < n := by exact_mod_cast hgt
    omega
  rw [pyRoundQ, if_neg hfr, round_eq, Int.floor_eq_iff]
  constructor
  · linarith
  · linarith

/-- Characterization of pyRound away from exact halves. -/
theorem pyRound_eq_of (x : ℝ) (n : ℤ) (h1 : (n : ℝ) - 1 / 2 < x)
    (h2 : x < (n : ℝ) + 1 / 2) : pyRound x = n := by
  have hfr : Int.fract x ≠ 1 / 2 := by
    intro h
    have hx : x = (⌊x⌋ : ℝ) + 1 / 2 := by
      have := Int.fract_add_floor x
      rw [h] at this
      linarith
    rw [hx] at h1 h2
    have hlt : (n : ℝ) - 1 < (⌊x⌋ : ℝ) := by linarith
    have hgt : (⌊x⌋ : ℝ) < (n : ℝ) := by linarith
    have hlt' : n - 1 < ⌊x⌋ := by exact_mod_cast hlt
    have hgt' : ⌊x⌋ < n := by exact_mod_cast hgt
    omega
  rw [pyRound, if_neg hfr, round_eq, Int.floor_eq_iff]
  constructor
  · linarith
  · linarith

example : time_interval ⟨15, false⟩ = TimeInterval.minutes (276923 / 5000) := by
  rw [time_interval]
  norm_num [roundTo4, trading_day_conversion]
  rw [pyRoundQ_eq_of (7200000 / 13) 553846 (by norm_num) (by norm_num)]
  norm_num

/-- Bounds for the arange length: for a positive step and start < stop, the
length K satisfies 1 ≤ K, stop - start ≤ step * K and step * (K-1) < stop - start,
i.e. K = ceil((stop-start)/step). -/
theorem arangeLen_spec (start stop step : ℤ) (hs : 0 < step) (hlt : start < stop) :
    1 ≤ arangeLen start stop step ∧
    stop - start ≤ step * (arangeLen start stop step : ℤ) ∧
    step * ((arangeLen start stop step : ℤ) - 1) < stop - start := by
  have hs' : 0 < step.toNat := by omega
  have ha' : 0 < (stop - start).toNat := by omega
  rw [arangeLen, if_pos hlt]
  set a := (stop - start).toNat with hadef
  set s := step.toNat with hsdef
  set K := (a + (s - 1)) / s with hKdef
  have hK1 : 1 ≤ K := (Nat.one_le_div_iff hs').mpr (by omega)
  have hdm := Nat.div_add_mod (a + (s - 1)) s
  have hml : (a + (s - 1)) % s < s := Nat.mod_lt _ hs'
  rw [← hKdef] at hdm
  have hub : a ≤ s * K := by omega
  have hlb : s * K ≤ a + (s - 1) := by omega
  have hcast1 : step * (K : ℤ) = ((s * K : ℕ) : ℤ) := by
    push_cast
    rw [hsdef]
    rw [Int.toNat_of_nonneg hs.le]
  have hcast2 : step * ((K : ℤ) - 1) = ((s * K : ℕ) : ℤ) - step := by
    rw [mul_sub, hcast1]
    ring
  refine ⟨by exact_mod_cast hK1, ?_, ?_⟩
  · rw [hcast1]
    omega
  · rw [hcast2]
    omega

theorem np_arange_nil (start stop step : ℤ) (h : stop ≤ start) :
    np_arange start stop step = [] := by
  rw [np_arange, arangeLen, if_neg (not_lt.mpr h)]
  rfl

theorem np_arange_length (start stop step : ℤ) :
    (np_arange start stop step).length = arangeLen start stop step := by
  rw [np_arange, List.length_map, List.length_range]

theorem np_arange_getLast? (start stop step : ℤ) (hs : 0 < step) (hlt : start < stop) :
    (np_arange start stop step).getLast? =
      some (start + ((arangeLen start stop step : ℤ) - 1) * step) := by
  obtain ⟨m, hm⟩ : ∃ m, arangeLen start stop step = m + 1 := by
    have := (arangeLen_spec start stop step hs hlt).1
    exact ⟨arangeLen start stop step - 1, by omega⟩
  rw [np_arange, hm, List.range_succ, List.map_append]
  simp only [List.map_cons, List.map_nil]
  rw [List.getLast?_concat]
  congr 1
  push_cast
  ring

theorem np_arange_head? (start stop step : ℤ) (hs : 0 < step) (hlt : start < stop) :
    (np_arange start stop step).head? = some start := by
  obtain ⟨m, hm⟩ : ∃ m, arangeLen start stop step = m + 1 := by
    have := (arangeLen_spec start stop step hs hlt).1
    exact ⟨arangeLen start stop step - 1, by omega⟩
  rw [np_arange, hm, List.range_succ_eq_map]
  simp

theorem np_arange_pairwise (start stop step : ℤ) (hs : 0 < step) :
    (np_arange start stop step).Pairwise (· < ·) := by
  rw [np_arange, List.pairwise_map]
  refine (List.pairwise_lt_range _).imp ?_
  intro a b hab
  have : (a : ℤ) < (b : ℤ) := by exact_mod_cast hab
  have := mul_lt_mul_of_pos_right this hs
  omega

theorem np_arange_mem_lt (start stop step : ℤ) (hs : 0 < step) (hlt : start < stop) :
    ∀ x ∈ np_arange start stop step, x < stop := by
  intro x hx
  rw [np_arange, List.mem_map] at hx
  obtain ⟨k, hk, rfl⟩ := hx
  rw [List.mem_range] at hk
  have hspec := (arangeLen_spec start stop step hs hlt).2.2
  have hk' : (k : ℤ) ≤ (arangeLen start stop step : ℤ) - 1 := by
    have : (k : ℤ) < (arangeLen start stop step : ℤ) := by exact_mod_cast hk
    omega
  have : (k : ℤ) * step ≤ ((arangeLen start stop step : ℤ) - 1) * step :=
    mul_le_mul_of_nonneg_right hk' hs.le
  nlinarith [hspec]

/-- The append condition of closed_arange holds exactly when the stop value
is reachable: array[-1] + step <= stop iff step divides stop - start. -/
theorem closed_arange_append_iff (start stop step : ℤ) (hs : 0 < step) (hlt : start < stop) :
    (start + ((arangeLen start stop step : ℤ) - 1) * step + step ≤ stop ↔
      step ∣ (stop - start)) := by
  obtain ⟨hK1, hub, hlb⟩ := arangeLen_spec start stop step hs hlt
  constructor
  · intro h
    have : step * (arangeLen start stop step : ℤ) ≤ stop - start := by nlinarith
    have heq : stop - start = step * (arangeLen start stop step : ℤ) := le_antisymm hub this
    exact ⟨_, heq⟩
  · rintro ⟨t, ht⟩
    have hKt : (arangeLen start stop step : ℤ) = t := by
      by_contra hne
      rcases lt_or_gt_of_ne hne with h | h
      · have : (arangeLen start stop step : ℤ) + 1 ≤ t := by omega
        have := mul_le_mul_of_nonneg_left this hs.le
        nlinarith
      · have : t + 1 ≤ (arangeLen start stop step : ℤ) := by omega
        have := mul_le_mul_of_nonneg_left this hs.le
        nlinarith
    nlinarith [hKt]

/-- Full description of closed_arange on the region where it does not fault:
it is the half-open arange with stop appended exactly when step divides
stop - start. -/
theorem closed_arange_eq (start stop step : ℤ) (hs : 0 < step) (hlt : start < stop) :
    closed_arange start stop step =
      some (np_arange start stop step ++
        if step ∣ (stop - start) then [stop] else []) := by
  rw [closed_arange, np_arange_getLast? start stop step hs hlt, Option.map_some']
  by_cases hdvd : step ∣ (stop - start)
  · rw [if_pos hdvd, if_pos ((closed_arange_append_iff start stop step hs hlt).mpr hdvd)]
  · rw [if_neg hdvd, if_neg (fun h => hdvd ((closed_arange_append_iff start stop step hs hlt).mp h))]
    rw [List.append_nil]

theorem closed_arange_none_of_empty (start stop step : ℤ) (h : stop ≤ start) :
    closed_arange start stop step = none := by
  rw [closed_arange, np_arange_nil start stop step h]
  rfl

theorem np_arange_cons (start stop step : ℤ) (hs : 0 < step) (hlt : start < stop) :
    ∃ t, np_arange start stop step = start :: t := by
  have h := np_arange_head? start stop step hs hlt
  cases harr : np_arange start stop step with
  | nil => rw [harr] at h; exact absurd h (by simp)
  | cons a t =>
    rw [harr] at h
    simp only [List.head?_cons, Option.some.injEq] at h
    exact ⟨t, by rw [h]⟩

/-- The list produced by closed_arange is strictly increasing. -/
theorem closed_arange_list_pairwise (start stop step : ℤ) (hs : 0 < step) (hlt : start < stop) :
    (np_arange start stop step ++
      (if step ∣ (stop - start) then [stop] else [])).Pairwise (· < ·) := by
  rw [List.pairwise_append]
  refine ⟨np_arange_pairwise start stop step hs, ?_, ?_⟩
  · by_cases hdvd : step ∣ (stop - start) <;> simp [hdvd]
  · intro x hx y hy
    have hxlt := np_arange_mem_lt start stop step hs hlt x hx
    by_cases hdvd : step ∣ (stop - start)
    · rw [if_pos hdvd, List.mem_singleton] at hy
      rw [hy]
      exact hxlt
    · rw [if_neg hdvd] at hy
      exact absurd hy (List.not_mem_nil y)

/-- C1 (amended). closed_arange on a nonempty range with positive step returns
the half-open arange with stop appended exactly when stop is reachable, i.e.
when step divides stop - start; the result always starts at start and is
strictly increasing, and its final element is stop iff step divides
stop - start. -/
theorem c1_closed_arange_amended (start stop step : ℤ) (hs : 0 < step) (hlt : start < stop) :
    ∃ l, closed_arange start stop step = some l ∧
      l = np_arange start stop step ++ (if step ∣ (stop - start) then [stop] else []) ∧
      l.head? = some start ∧
      l.Pairwise (· < ·) ∧
      (l.getLast? = some stop ↔ step ∣ (stop - start)) := by
  refine ⟨_, closed_arange_eq start stop step hs hlt, rfl, ?_,
    closed_arange_list_pairwise start stop step hs hlt, ?_⟩
  · obtain ⟨t, ht⟩ := np_arange_cons start stop step hs hlt
    rw [ht]
    rfl
  · by_cases hdvd : step ∣ (stop - start)
    · rw [if_pos hdvd, List.getLast?_concat]
      simp [hdvd]
    · rw [if_neg hdvd, List.append_nil, np_arange_getLast? start stop step hs hlt]
      have hne : start + ((arangeLen start stop step : ℤ) - 1) * step ≠ stop := by
        have := (arangeLen_spec start stop step hs hlt).2.2
        intro h
        nlinarith
      simp [hne, hdvd]

/-- C1 (counterexample to the claim as stated). The claim asserts
closed_arange(0, 10, 3) = [0, 3, 6, 9, 10]: in fact the source only appends
stop when array[-1] + step <= stop, which fails here (9 + 3 = 12 > 10), so
the result is the plain half-open range [0, 3, 6, 9] and stop is dropped. -/
theorem c1_closed_arange_counterexample :
    closed_arange 0 10 3 = some [0, 3, 6, 9] ∧
      closed_arange 0 10 3 ≠ some [0, 3, 6, 9, 10] := by decide

/-- C1 witness: the amended theorem evaluated at the divisible example, where
stop is appended exactly once. -/
theorem c1_closed_arange_amended_witness :
    closed_arange 10 100 10 = some [10, 20, 30, 40, 50, 60, 70, 80, 90, 100] := by
  obtain ⟨l, h1, h2, -, -, -⟩ := c1_closed_arange_amended 10 100 10 (by decide) (by decide)
  rw [h1, h2]
  decide

/-- C9. closed_arange is partial at its interface: with a positive step it
faults (the array[-1] subscription raises IndexError, modelled as none)
exactly when the underlying half-open range is empty, i.e. when stop ≤ start;
under the precondition start < stop the error branch is unreachable. -/
theorem c9_closed_arange_faults_iff (start stop step : ℤ) (hs : 0 < step) :
    closed_arange start stop step = none ↔ stop ≤ start := by
  constructor
  · intro h
    by_contra hlt
    push_neg at hlt
    rw [closed_arange_eq start stop step hs hlt] at h
    exact Option.noConfusion h
  · exact closed_arange_none_of_empty start stop step

/-- C9 witness: at start = stop the function faults. -/
theorem c9_closed_arange_faults_iff_witness : closed_arange 10 10 3 = none :=
  (c9_closed_arange_faults_iff 10 10 3 (by decide)).mpr (by decide)

theorem overlap_factor_eq_of_ge (n : ℕ) (h : 8 ≤ n) :
    overlap_factor n = 13 / (9 * π) * Real.arctan n := by
  rw [overlap_factor, if_neg (by omega)]

theorem arctan_le_self_of_nonneg (x : ℝ) (hx : 0 ≤ x) : Real.arctan x ≤ x := by
  have h1 : 0 ≤ Real.arctan x := by
    have := Real.arctan_strictMono.monotone hx
    rwa [Real.arctan_zero] at this
  have h2 : Real.arctan x < π / 2 := Real.arctan_lt_pi_div_two x
  calc Real.arctan x ≤ Real.tan (Real.arctan x) := Real.le_tan h1 h2
    _ = x := Real.tan_arctan x

theorem arctan_eight_lower : π / 2 - 1 / 8 ≤ Real.arctan 8 := by
  have h := Real.arctan_inv_of_pos (show (0 : ℝ) < 8 by norm_num)
  have h2 : Real.arctan 8⁻¹ ≤ 8⁻¹ := arctan_le_self_of_nonneg _ (by norm_num)
  have h8 : (8 : ℝ)⁻¹ = 1 / 8 := by norm_num
  linarith [h, h2]

theorem overlap_factor_gt_ceiling (n : ℕ) (h : 8 ≤ n) : 0.64 < overlap_factor n := by
  rw [overlap_factor_eq_of_ge n h]
  have hmono : Real.arctan 8 ≤ Real.arctan n :=
    Real.arctan_strictMono.monotone (by exact_mod_cast h)
  have hlow := arctan_eight_lower
  have hpi : (3 : ℝ) < π := Real.pi_gt_three
  have hpos : (0 : ℝ) < 13 / (9 * π) := by positivity
  have hexp : 13 / (9 * π) * (π / 2 - 1 / 8) = 13 / 18 - 13 / (72 * π) := by
    field_simp
    ring
  have hfrac : 13 / (72 * π) < 13 / 216 := by
    apply div_lt_div_of_pos_left (by norm_num) (by norm_num)
    linarith
  have hstep : (0.64 : ℝ) < 13 / (9 * π) * (π / 2 - 1 / 8) := by
    rw [hexp]
    norm_num
    linarith
  calc (0.64 : ℝ) < 13 / (9 * π) * (π / 2 - 1 / 8) := hstep
    _ ≤ 13 / (9 * π) * Real.arctan n :=
        mul_le_mul_of_nonneg_left (le_trans hlow hmono) hpos.le

theorem overlap_factor_lt_limit (n : ℕ) (h : 8 ≤ n) : overlap_factor n < 13 / 18 := by
  rw [overlap_factor_eq_of_ge n h]
  have hpos : (0 : ℝ) < 13 / (9 * π) := by positivity
  have hlt := Real.arctan_lt_pi_div_two (n : ℝ)
  have heq : 13 / (9 * π) * (π / 2) = 13 / 18 := by
    field_simp
    ring
  calc 13 / (9 * π) * Real.arctan n < 13 / (9 * π) * (π / 2) :=
        mul_lt_mul_of_pos_left hlt hpos
    _ = 13 / 18 := heq

theorem overlap_factor_tendsto :
    Tendsto (fun n : ℕ => overlap_factor n) atTop (𝓝 (13 / 18)) := by
  have h1 : Tendsto Real.arctan atTop (𝓝 (π / 2)) :=
    Real.tendsto_arctan_atTop.mono_right nhdsWithin_le_nhds
  have h2 : Tendsto (fun x : ℝ => 13 / (9 * π) * Real.arctan x) atTop
      (𝓝 (13 / (9 * π) * (π / 2))) := h1.const_mul _
  have h3 := h2.comp (tendsto_natCast_atTop_atTop : Tendsto (Nat.cast : ℕ → ℝ) atTop atTop)
  have heq : 13 / (9 * π) * (π / 2) = 13 / 18 := by
    field_simp
    ring
  rw [heq] at h3
  apply h3.congr'
  filter_upwards [eventually_ge_atTop 8] with n hn
  exact (overlap_factor_eq_of_ge n hn).symm

/-- C3 (amended). overlap_factor matches the lookup table on N = 2..7 and the
closed form (13/(9*pi))*atan(N) for N >= 8; but the closed form already
exceeds the lookup-table ceiling 0.64 at N = 8, and what it asymptotically
approaches (from below, never reaching it) is 13/18, not 0.64. -/
theorem c3_overlap_factor_amended :
    (overlap_factor 2 = 0.375 ∧ overlap_factor 3 = 0.5 ∧ overlap_factor 4 = 0.56 ∧
      overlap_factor 5 = 0.6 ∧ overlap_factor 6 = 0.625 ∧ overlap_factor 7 = 0.64) ∧
    (∀ n : ℕ, 8 ≤ n → overlap_factor n = 13 / (9 * π) * Real.arctan n ∧
      0.64 < overlap_factor n ∧ overlap_factor n < 13 / 18) ∧
    Tendsto (fun n : ℕ => overlap_factor n) atTop (𝓝 (13 / 18)) := by
  refine ⟨?_, ?_, overlap_factor_tendsto⟩
  · refine ⟨?_, ?_, ?_, ?_, ?_, ?_⟩
    all_goals norm_num [overlap_factor, pyGet, factors]
    all_goals rfl
  · intro n hn
    exact ⟨overlap_factor_eq_of_ge n hn, overlap_factor_gt_ceiling n hn,
      overlap_factor_lt_limit n hn⟩

/-- C3 (counterexample to the claim as stated). The claim asserts the closed
form stays strictly below the lookup-table ceiling 0.64 for every N >= 8: in
fact already at N = 8 the value (13/(9*pi))*atan(8) is about 0.665 > 0.64. -/
theorem c3_overlap_factor_counterexample :
    0.64 < overlap_factor 8 ∧ ¬ overlap_factor 8 < 0.64 := by
  have h := overlap_factor_gt_ceiling 8 (le_refl 8)
  exact ⟨h, not_lt.mpr h.le⟩

/-- C3 witness: the amended statement instantiated at N = 9. -/
theorem c3_overlap_factor_amended_witness :
    overlap_factor 9 = 13 / (9 * π) * Real.arctan 9 ∧
      0.64 < overlap_factor 9 ∧ overlap_factor 9 < 13 / 18 := by
  have h := c3_overlap_factor_amended.2.1 9 (by norm_num)
  simpa using h

/-- Index of the first occurrence of the minimum of a list, mirroring the
behaviour of pandas Series.idxmin used in get_optimal_parameters
(backtest.py lines 144): on ties the earliest label is returned. -/
def idxmin : List ℚ → ℕ
  | [] => 0
  | [_] => 0
  | x :: y :: ys =>
    if x ≤ (y :: ys).getD (idxmin (y :: ys)) 0 then 0 else idxmin (y :: ys) + 1

/-- Index of the first occurrence of the maximum, mirroring pandas
Series.idxmax (backtest.py line 146). -/
def idxmax : List ℚ → ℕ
  | [] => 0
  | [_] => 0
  | x :: y :: ys =>
    if (y :: ys).getD (idxmax (y :: ys)) 0 ≤ x then 0 else idxmax (y :: ys) + 1

theorem idxmin_lt_length : ∀ l : List ℚ, l ≠ [] → idxmin l < l.length
  | [], h => absurd rfl h
  | [_], _ => by simp [idxmin]
  | x :: y :: ys, _ => by
    rw [idxmin]
    split
    · simp
    · have := idxmin_lt_length (y :: ys) (by simp)
      simp only [List.length_cons] at this ⊢
      omega

theorem idxmax_lt_length : ∀ l : List ℚ, l ≠ [] → idxmax l < l.length
  | [], h => absurd rfl h
  | [_], _ => by simp [idxmax]
  | x :: y :: ys, _ => by
    rw [idxmax]
    split
    · simp
    · have := idxmax_lt_length (y :: ys) (by simp)
      simp only [List.length_cons] at this ⊢
      omega

theorem getD_idxmin_le : ∀ (l : List ℚ), ∀ a ∈ l, l.getD (idxmin l) 0 ≤ a
  | [_], a, ha => by
    simp only [List.mem_singleton] at ha
    simp [idxmin, ha]
  | x :: y :: ys, a, ha => by
    rw [idxmin]
    split
    · rename_i h
      rcases List.mem_cons.mp ha with rfl | hmem
      · simp
      · calc (x :: y :: ys).getD 0 0 = x := rfl
          _ ≤ (y :: ys).getD (idxmin (y :: ys)) 0 := h
          _ ≤ a := getD_idxmin_le (y :: ys) a hmem
    · rename_i h
      push_neg at h
      have hstep : (x :: y :: ys).getD (idxmin (y :: ys) + 1) 0 =
          (y :: ys).getD (idxmin (y :: ys)) 0 := rfl
      rw [hstep]
      rcases List.mem_cons.mp ha with rfl | hmem
      · exact h.le
      · exact getD_idxmin_le (y :: ys) a hmem

theorem getD_idxmax_ge : ∀ (l : List ℚ), ∀ a ∈ l, a ≤ l.getD (idxmax l) 0
  | [_], a, ha => by
    simp only [List.mem_singleton] at ha
    simp [idxmax, ha]
  | x :: y :: ys, a, ha => by
    rw [idxmax]
    split
    · rename_i h
      rcases List.mem_cons.mp ha with rfl | hmem
      · simp
      · calc a ≤ (y :: ys).getD (idxmax (y :: ys)) 0 := getD_idxmax_ge (y :: ys) a hmem
          _ ≤ x := h
          _ = (x :: y :: ys).getD 0 0 := rfl
    · rename_i h
      push_neg at h
      have hstep : (x :: y :: ys).getD (idxmax (y :: ys) + 1) 0 =
          (y :: ys).getD (idxmax (y :: ys)) 0 := rfl
      rw [hstep]
      rcases List.mem_cons.mp ha with rfl | hmem
      · exact h.le
      · exact getD_idxmax_ge (y :: ys) a hmem

theorem idxmin_first :
    ∀ (l : List ℚ) (k : ℕ), k < idxmin l → l.getD (idxmin l) 0 < l.getD k 0
  | [], k, hk => by simp [idxmin] at hk
  | [_], k, hk => by simp [idxmin] at hk
  | x :: y :: ys, k, hk => by
    rw [idxmin] at hk ⊢
    split at hk
    · omega
    · rename_i h
      push_neg at h
      have hstep : (x :: y :: ys).getD (idxmin (y :: ys) + 1) 0 =
          (y :: ys).getD (idxmin (y :: ys)) 0 := rfl
      rw [if_neg (not_le.mpr h), hstep]
      match k with
      | 0 => exact h
      | k' + 1 =>
        have hk' : k' < idxmin (y :: ys) := by omega
        exact idxmin_first (y :: ys) k' hk'

theorem idxmax_first :
    ∀ (l : List ℚ) (k : ℕ), k < idxmax l → l.getD k 0 < l.getD (idxmax l) 0
  | [], k, hk => by simp [idxmax] at hk
  | [_], k, hk => by simp [idxmax] at hk
  | x :: y :: ys, k, hk => by
    rw [idxmax] at hk ⊢
    split at hk
    · omega
    · rename_i h
      push_neg at h
      have hstep : (x :: y :: ys).getD (idxmax (y :: ys) + 1) 0 =
          (y :: ys).getD (idxmax (y :: ys)) 0 := rfl
      rw [if_neg (not_le.mpr h), hstep]
      match k with
      | 0 => exact h
      | k' + 1 =>
        have hk' : k' < idxmax (y :: ys) := by omega
        exact idxmax_first (y :: ys) k' hk'

/-- The per-window index selection of get_optimal_parameters
(backtest.py lines 142-146): idxmin for the max_drawdown metric, idxmax for
every other metric. -/
def select_index (selected_metric : String) (vals : List ℚ) : ℕ :=
  if selected_metric = "max_drawdown" then idxmin vals else idxmax vals

/-- The parameter combination a window's selection index points at, in the
window's canonical grid order. -/
def optimal_combo (selected_metric : String) (window : List ((ℤ × ℤ) × ℚ)) : ℤ × ℤ :=
  (window.getD (select_index selected_metric (window.map Prod.snd)) ((0, 0), 0)).1

/-- get_optimal_parameters (backtest.py lines 142-150): per split_idx group
(window), pick the index label of the extremal metric value and read off the
two parameter levels. Each window is an association list from parameter
combination to metric value, listed in canonical grid order. -/
def get_optimal_parameters (selected_metric : String)
    (windows : List (List ((ℤ × ℤ) × ℚ))) : List (ℤ × ℤ) :=
  windows.map (optimal_combo selected_metric)

/-- itertools.combinations(l, 2) (backtest.py line 130) and equally the pair
enumeration performed by vectorbt run_combs for the crossover strategies:
all pairs (l[i], l[j]) with i < j, in lexicographic position order. -/
def combinations2 {α : Type} : List α → List (α × α)
  | [] => []
  | x :: xs => (xs.map (fun y => (x, y))) ++ combinations2 xs

/-- Strict lexicographic order on parameter combinations: the canonical grid
order, lowest parameter values first. -/
def comboLex (p q : ℤ × ℤ) : Prop := p.1 < q.1 ∨ (p.1 = q.1 ∧ p.2 < q.2)

theorem combinations2_mem_lt :
    ∀ (l : List ℤ), l.Pairwise (· < ·) → ∀ p ∈ combinations2 l, p.1 < p.2
  | [], _, p, hp => absurd hp (List.not_mem_nil p)
  | x :: xs, hl, p, hp => by
    rw [List.pairwise_cons] at hl
    rw [combinations2, List.mem_append] at hp
    rcases hp with hp | hp
    · rw [List.mem_map] at hp
      obtain ⟨y, hy, rfl⟩ := hp
      exact hl.1 y hy
    · exact combinations2_mem_lt xs hl.2 p hp

theorem combinations2_mem_fst :
    ∀ (l : List α) (p : α × α), p ∈ combinations2 l → p.1 ∈ l
  | [], p, hp => absurd hp (List.not_mem_nil p)
  | x :: xs, p, hp => by
    rw [combinations2, List.mem_append] at hp
    rcases hp with hp | hp
    · rw [List.mem_map] at hp
      obtain ⟨y, hy, rfl⟩ := hp
      exact List.mem_cons_self x xs
    · exact List.mem_cons_of_mem x (combinations2_mem_fst xs p hp)

theorem combinations2_pairwise_lex :
    ∀ (l : List ℤ), l.Pairwise (· < ·) → (combinations2 l).Pairwise comboLex
  | [], _ => List.Pairwise.nil
  | x :: xs, hl => by
    rw [List.pairwise_cons] at hl
    rw [combinations2, List.pairwise_append]
    refine ⟨?_, combinations2_pairwise_lex xs hl.2, ?_⟩
    · rw [List.pairwise_map]
      exact hl.2.imp (fun hab => Or.inr ⟨rfl, hab⟩)
    · intro p hp q hq
      rw [List.mem_map] at hp
      obtain ⟨y, hy, rfl⟩ := hp
      exact Or.inl (hl.1 q.1 (combinations2_mem_fst xs q hq))

/-- C4. The optimizer selects, per window, the index of the minimum metric
value when the chosen metric is max_drawdown and the maximum otherwise; on
exact ties it picks the first (lowest) index, and the canonical grid order
produced by the pair enumeration over an increasing value list is
lexicographically sorted, lowest parameter values first. -/
theorem c4_optimizer_polarity_and_ties (selected_metric : String)
    (windows : List (List ((ℤ × ℤ) × ℚ))) (w : List ((ℤ × ℤ) × ℚ))
    (_hw : w ∈ windows) (hne : w ≠ []) :
    get_optimal_parameters selected_metric windows =
      windows.map (optimal_combo selected_metric) ∧
    select_index selected_metric (w.map Prod.snd) < w.length ∧
    optimal_combo selected_metric w =
      (w.getD (select_index selected_metric (w.map Prod.snd)) ((0, 0), 0)).1 ∧
    (selected_metric = "max_drawdown" →
      (∀ p ∈ w, (w.map Prod.snd).getD (select_index selected_metric (w.map Prod.snd)) 0 ≤ p.2) ∧
      (∀ k < select_index selected_metric (w.map Prod.snd),
        (w.map Prod.snd).getD (select_index selected_metric (w.map Prod.snd)) 0 <
          (w.map Prod.snd).getD k 0)) ∧
    (selected_metric ≠ "max_drawdown" →
      (∀ p ∈ w, p.2 ≤ (w.map Prod.snd).getD (select_index selected_metric (w.map Prod.snd)) 0) ∧
      (∀ k < select_index selected_metric (w.map Prod.snd),
        (w.map Prod.snd).getD k 0 <
          (w.map Prod.snd).getD (select_index selected_metric (w.map Prod.snd)) 0)) ∧
    (∀ l : List ℤ, l.Pairwise (· < ·) → (combinations2 l).Pairwise comboLex) := by
  have hvne : w.map Prod.snd ≠ [] := by
    intro h
    exact hne (List.map_eq_nil_iff.mp h)
  refine ⟨rfl, ?_, rfl, ?_, ?_, fun l hl => combinations2_pairwise_lex l hl⟩
  · rw [select_index]
    split
    · have := idxmin_lt_length (w.map Prod.snd) hvne
      simpa using this
    · have := idxmax_lt_length (w.map Prod.snd) hvne
      simpa using this
  · intro hmet
    rw [select_index, if_pos hmet]
    refine ⟨?_, fun k hk => idxmin_first (w.map Prod.snd) k hk⟩
    intro p hp
    exact getD_idxmin_le (w.map Prod.snd) p.2 (List.mem_map_of_mem Prod.snd hp)
  · intro hmet
    rw [select_index, if_neg hmet]
    refine ⟨?_, fun k hk => idxmax_first (w.map Prod.snd) k hk⟩
    intro p hp
    exact getD_idxmax_ge (w.map Prod.snd) p.2 (List.mem_map_of_mem Prod.snd hp)

/-- C4 witness: with metric max_drawdown and window values [3, 1, 1], the
selection index is 1 (the first of the two tied minima) and the selected
combination is the one listed first in grid order among the tied ones. -/
theorem c4_optimizer_polarity_and_ties_witness :
    get_optimal_parameters "max_drawdown"
        [[((10, 20), (3 : ℚ)), ((10, 30), 1), ((20, 30), 1)]] =
      [optimal_combo "max_drawdown" [((10, 20), (3 : ℚ)), ((10, 30), 1), ((20, 30), 1)]] ∧
    select_index "max_drawdown"
        ([((10, 20), (3 : ℚ)), ((10, 30), 1), ((20, 30), 1)].map Prod.snd) < 3 ∧
    optimal_combo "max_drawdown" [((10, 20), (3 : ℚ)), ((10, 30), 1), ((20, 30), 1)] =
      ((10 : ℤ), (30 : ℤ)) := by
  have h := c4_optimizer_polarity_and_ties "max_drawdown"
    [[((10, 20), (3 : ℚ)), ((10, 30), 1), ((20, 30), 1)]]
    [((10, 20), (3 : ℚ)), ((10, 30), 1), ((20, 30), 1)] (by simp) (by simp)
  refine ⟨h.1, by simpa using h.2.1, ?_⟩
  norm_num [optimal_combo, select_index, idxmin]

/-- RSI branch parameter grid (backtest.py lines 127-133): raw values from
closed_arange(selected_range[0], selected_range[1], 2, np.int16), then all
2-combinations, entries before exits. -/
def rsi_parameter_combinations (selected_range : ℤ × ℤ) : Option (List (ℤ × ℤ)) :=
  (closed_arange selected_range.1 selected_range.2 2).map combinations2

/-- The indicator invocation of the RSI branch of backtest_windows
(backtest.py lines 135-139): the oscillator is run as
vbt.IndicatorFactory.from_talib('RSI').run(price, 14), entries cross below
entry_exit_values[0], exits cross above entry_exit_values[1]. -/
structure RSIRun where
  period : ℕ
  entry_value : ℤ
  exit_value : ℤ
deriving DecidableEq, Repr

/-- The RSI backtest_windows configuration for one entry/exit combination. -/
def rsi_backtest_windows (entry_exit_values : ℤ × ℤ) : RSIRun :=
  { period := 14
    entry_value := entry_exit_values.1
    exit_value := entry_exit_values.2 }

/-- C7. For the RSI strategy the oscillator period is the constant 14, and
every parameter combination submitted for evaluation has entry threshold
strictly below exit threshold: the grid is built from 2-combinations of a
strictly increasing value list, so invalid combinations never arise. -/
theorem c7_rsi_grid_and_period (selected_range : ℤ × ℤ)
    (hlt : selected_range.1 < selected_range.2) :
    ∃ combos, rsi_parameter_combinations selected_range = some combos ∧
      (∀ p ∈ combos, p.1 < p.2) ∧
      (∀ p ∈ combos, (rsi_backtest_windows p).period = 14) := by
  have h2 : (0 : ℤ) < 2 := by decide
  refine ⟨combinations2 (np_arange selected_range.1 selected_range.2 2 ++
      (if 2 ∣ (selected_range.2 - selected_range.1) then [selected_range.2] else [])),
    ?_, ?_, fun p _ => rfl⟩
  · rw [rsi_parameter_combinations,
      closed_arange_eq selected_range.1 selected_range.2 2 h2 hlt, Option.map_some']
  · exact combinations2_mem_lt _
      (closed_arange_list_pairwise selected_range.1 selected_range.2 2 h2 hlt)

/-- C7 witness: for the range slider values (20, 24) the raw values are
[20, 22, 24] and every generated combination has entry < exit. -/
theorem c7_rsi_grid_and_period_witness :
    rsi_parameter_combinations (20, 24) = some [(20, 22), (20, 24), (22, 24)] ∧
    ((20 : ℤ) < 22 ∧ (20 : ℤ) < 24 ∧ (22 : ℤ) < 24) ∧
    (rsi_backtest_windows (20, 22)).period = 14 := by
  obtain ⟨combos, h1, hlt, hper⟩ := c7_rsi_grid_and_period (20, 24) (by decide)
  have hc : combos = [(20, 22), (20, 24), (22, 24)] := by
    have hval : rsi_parameter_combinations (20, 24) =
        some [(20, 22), (20, 24), (22, 24)] := by decide
    rw [h1] at hval
    simpa using hval
  subst hc
  refine ⟨h1, ⟨?_, ?_, ?_⟩, hper (20, 22) (by simp)⟩
  · exact hlt (20, 22) (by simp)
  · exact hlt (20, 24) (by simp)
  · exact hlt (22, 24) (by simp)

/-- The request parameters received by perform_backtest
(backtest.py lines 61-62), excluding the session id which only keys the
cache write. -/
structure BacktestRequest where
  selected_strategy : String
  nwindows : ℕ
  insample : ℚ
  selected_timeframe : Timeframe
  selected_direction : String
  selected_range : ℤ × ℤ
  selected_metric : String

/-- One invocation of backtest_windows, i.e. of
vbt.Portfolio.from_signals(price, entries, exits, pf_kwargs): the price
windows, the parameter combinations evaluated, and the portfolio
configuration. -/
structure SimCall where
  prices : List (List ℚ)
  params : List (ℤ × ℤ)
  config : PfKwargs

/-- The external vectorbt library, which is not part of this repository: its
two entry points used by perform_backtest are modelled as opaque pure
functions supplied as parameters. rolling_split returns the in-sample and
out-of-sample price windows; run_sim returns, per window, one metric value
per parameter combination. -/
structure VbtLib where
  rolling_split : List ℚ → WindowKwargs → List (List ℚ) × List (List ℚ)
  run_sim : SimCall → List (List ℚ)

/-- The structured contents of the report assembled by perform_backtest
(backtest.py lines 169-186): window numbers np.arange(1, nwindows+1), the
in-sample-optimal parameters applied out of sample, the
out-of-sample-optimal parameters, and the realized out-of-sample metric
values. -/
structure Report where
  window_numbers : List ℕ
  outsample_parameters : List (ℤ × ℤ)
  optimal_parameters : List (ℤ × ℤ)
  outsample_metrics : List (List ℚ)

/-- The cache write cache.set(session_id, pickled_portfolio, timeout=7200)
(backtest.py line 166). -/
structure CacheWrite where
  key : String
  timeout : ℕ

/-- Trace of the calls perform_backtest makes into the external library: the
keyword arguments handed to rolling_split and the three simulation calls
(in-sample sweep, out-of-sample apply, out-of-sample sweep). -/
structure BacktestTrace where
  splitter_input : WindowKwargs
  sim_calls : List SimCall

/-- The parameter grid built per strategy branch (backtest.py lines 86-139):
closed_arange with step 10 and all fast < slow pairs (run_combs) for the two
crossover strategies, closed_arange with step 2 and all entry < exit pairs
(itertools.combinations) for RSI; any other strategy name falls through all
branches and the callback faults on the undefined names (modelled none). -/
def strategy_grid (selected_strategy : String) (selected_range : ℤ × ℤ) :
    Option (List (ℤ × ℤ)) :=
  if selected_strategy = "SMA Crossover" then
    (closed_arange selected_range.1 selected_range.2 10).map combinations2
  else if selected_strategy = "EMA Crossover" then
    (closed_arange selected_range.1 selected_range.2 10).map combinations2
  else if selected_strategy = "RSI" then
    rsi_parameter_combinations selected_range
  else none

/-- The perform_backtest callback (backtest.py lines 61-186) with the
external library calls abstracted: build the strategy grid, compute the
window kwargs, split, run the in-sample sweep, select per-window optimal
parameters, apply them out of sample, run the out-of-sample sweep for
comparison, assemble the report and the cache write. The trace records what
was handed to the library. -/
noncomputable def perform_backtest (lib : VbtLib) (req : BacktestRequest)
    (series : List ℚ) (session_id : String) :
    Option (Report × CacheWrite × BacktestTrace) :=
  (strategy_grid req.selected_strategy req.selected_range).map (fun parameter_values =>
    let kwargs := window_kwargs series.length req.nwindows req.insample
    let split := lib.rolling_split series kwargs
    let in_price := split.1
    let out_price := split.2
    let freq := time_interval req.selected_timeframe
    let cfg := pf_kwargs req.selected_direction freq
    let call_in : SimCall := ⟨in_price, parameter_values, cfg⟩
    let metrics_in := lib.run_sim call_in
    let outsample_parameters := get_optimal_parameters req.selected_metric
      (metrics_in.map (fun wvals => parameter_values.zip wvals))
    let call_out : SimCall := ⟨out_price, outsample_parameters, cfg⟩
    let metrics_out := lib.run_sim call_out
    let call_out_opt : SimCall := ⟨out_price, parameter_values, cfg⟩
    let metrics_out_opt := lib.run_sim call_out_opt
    let optimal_parameters := get_optimal_parameters req.selected_metric
      (metrics_out_opt.map (fun wvals => parameter_values.zip wvals))
    (⟨List.range' 1 req.nwindows, outsample_parameters, optimal_parameters, metrics_out⟩,
     ⟨session_id, 7200⟩,
     ⟨kwargs, [call_in, call_out, call_out_opt]⟩))

/-- C8. The computation is deterministic: the report is a pure function of
the price series and the request parameters. In particular it does not
depend on the session id, which only keys the cache write; the simulation
itself is modelled as a pure function because the source invokes vectorbt
with no randomness source anywhere in simulation, selection or
aggregation. -/
theorem c8_deterministic_report (lib : VbtLib) (req : BacktestRequest)
    (series : List ℚ) (sid1 sid2 : String) :
    (perform_backtest lib req series sid1).map (fun r => r.1) =
      (perform_backtest lib req series sid2).map (fun r => r.1) ∧
    (perform_backtest lib req series sid1).map (fun r => r.2.2) =
      (perform_backtest lib req series sid2).map (fun r => r.2.2) := by
  cases hgrid : strategy_grid req.selected_strategy req.selected_range with
  | none => simp [perform_backtest, hgrid]
  | some g => simp [perform_backtest, hgrid]

/-- C5. The window length handed to the splitter is
round(L / ((1 - overlap_factor(N)) * N)) where L is the series length and N
the window count; e.g. for L = 1000, N = 4 the quotient 1000/1.76 = 568.18...
rounds to 568. -/
theorem c5_window_length :
    (∀ (lib : VbtLib) (req : BacktestRequest) (series : List ℚ) (sid : String),
      (perform_backtest lib req series sid).map (fun r => r.2.2.splitter_input) =
        (strategy_grid req.selected_strategy req.selected_range).map
          (fun _ => window_kwargs series.length req.nwindows req.insample)) ∧
    (∀ (L N : ℕ) (f : ℚ), (window_kwargs L N f).window_len =
      pyRound ((L : ℝ) / ((1 - overlap_factor N) * (N : ℝ))) ∧
      (window_kwargs L N f).n = N ∧ (window_kwargs L N f).set_lens = f / 100) ∧
    (window_kwargs 1000 4 70).window_len = 568 := by
  refine ⟨?_, fun L N f => ⟨rfl, rfl, rfl⟩, ?_⟩
  · intro lib req series sid
    cases hgrid : strategy_grid req.selected_strategy req.selected_range with
    | none => simp [perform_backtest, hgrid]
    | some g => simp [perform_backtest, hgrid]
  · have h4 : overlap_factor 4 = 0.56 := by
      norm_num [overlap_factor, pyGet, factors]
      rfl
    show pyRound ((1000 : ℕ) / ((1 - overlap_factor 4) * ((4 : ℕ) : ℝ))) = 568
    rw [h4]
    rw [show (((1000 : ℕ) : ℝ) / ((1 - (0.56 : ℝ)) * ((4 : ℕ) : ℝ))) = 62500 / 110 by
      push_cast
      norm_num]
    exact pyRound_eq_of (62500 / 110) 568 (by norm_num) (by norm_num)

/-- C6. Intraday timeframes are inflated by 24/6.5 and rounded to 4 decimal
places before being passed as the per-bar frequency in minutes; the daily
timeframe is passed through uncorrected. For the app's timeframes:
15 minutes becomes 55.3846 minutes and the numeric value 1 becomes 3.6923
minutes. -/
theorem c6_timeframe_correction :
    (∀ tf : Timeframe, time_interval tf =
      if tf.isDaily then TimeInterval.daily
      else TimeInterval.minutes (roundTo4 ((tf.value : ℚ) * (24 / 6.5)))) ∧
    time_interval ⟨15, false⟩ = TimeInterval.minutes (55.3846 : ℚ) ∧
    time_interval ⟨1, false⟩ = TimeInterval.minutes (3.6923 : ℚ) ∧
    time_interval ⟨1, true⟩ = TimeInterval.daily := by
  refine ⟨fun tf => rfl, ?_, ?_, rfl⟩
  · rw [time_interval]
    norm_num [roundTo4, trading_day_conversion]
    rw [pyRoundQ_eq_of (7200000 / 13) 553846 (by norm_num) (by norm_num)]
    norm_num
  · rw [time_interval]
    norm_num [roundTo4, trading_day_conversion]
    rw [pyRoundQ_eq_of (480000 / 13) 36923 (by norm_num) (by norm_num)]
    norm_num

/-- C10. Every simulation call in every run is configured with
init_cash = 100, fees = 0 and slippage = 0: all three calls use the single
pf_kwargs value, whose capital, fee and slippage fields are literals
independent of every request parameter. -/
theorem c10_fixed_trading_config :
    (∀ (lib : VbtLib) (req : BacktestRequest) (series : List ℚ) (sid : String),
      (perform_backtest lib req series sid).map
          (fun r => r.2.2.sim_calls.map (fun c => c.config)) =
        (strategy_grid req.selected_strategy req.selected_range).map
          (fun _ =>
            [pf_kwargs req.selected_direction (time_interval req.selected_timeframe),
             pf_kwargs req.selected_direction (time_interval req.selected_timeframe),
             pf_kwargs req.selected_direction (time_interval req.selected_timeframe)])) ∧
    (∀ (d : String) (f : TimeInterval), (pf_kwargs d f).init_cash = 100 ∧
      (pf_kwargs d f).fees = 0 ∧ (pf_kwargs d f).slippage = 0) := by
  refine ⟨?_, fun d f => ⟨rfl, by norm_num [pf_kwargs], by norm_num [pf_kwargs]⟩⟩
  intro lib req series sid
  cases hgrid : strategy_grid req.selected_strategy req.selected_range with
  | none => simp [perform_backtest, hgrid]
  | some g => simp [perform_backtest, hgrid]

/-- A concrete library instantiation used by the concrete evaluations below:
the splitter and simulator return fixed windows and metric values. -/
def sampleLib : VbtLib :=
  { rolling_split := fun _ _ => ([[1]], [[1]])
    run_sim := fun _ => [[1]] }

/-- A concrete RSI request used by the concrete evaluations below. -/
def sampleRequest : BacktestRequest :=
  { selected_strategy := "RSI"
    nwindows := 5
    insample := 70
    selected_timeframe := ⟨1, true⟩
    selected_direction := "longonly"
    selected_range := (20, 24)
    selected_metric := "total_return" }

/-- C2 (counterexample to the claim as stated). The claim asserts that an
empty price series makes the computation fail with an InsufficientDataError
before any simulation: in fact perform_backtest contains no length or
emptiness check and defines no such error; on an empty series the
computation proceeds and all three simulation calls are still issued. -/
theorem c2_no_insufficient_data_error_counterexample :
    (perform_backtest sampleLib sampleRequest ([] : List ℚ) "sid").isSome = true ∧
    (perform_backtest sampleLib sampleRequest ([] : List ℚ) "sid").map
        (fun r => r.2.2.sim_calls.length) = some 3 := by
  have hgrid : strategy_grid "RSI" (20, 24) =
      some [(20, 22), (20, 24), (22, 24)] := by decide
  constructor <;> simp [perform_backtest, sampleRequest, sampleLib, hgrid]

/-- C2 (amended). perform_backtest performs no validation of the price
series: whether the computation proceeds depends only on the strategy name
being recognized, never on the series length, and an empty series flows into
the window-length computation as round(0 / x) = 0, handed directly to the
splitter. Any failure on empty data can only arise inside the external
library, not as a hard input error raised by this code. -/
theorem c2_no_validation_amended :
    (∀ (lib : VbtLib) (req : BacktestRequest) (sid : String),
      (perform_backtest lib req ([] : List ℚ) sid).isSome =
        (strategy_grid req.selected_strategy req.selected_range).isSome) ∧
    (∀ (n : ℕ) (f : ℚ), (window_kwargs 0 n f).window_len = 0) := by
  constructor
  · intro lib req sid
    cases hgrid : strategy_grid req.selected_strategy req.selected_range with
    | none => simp [perform_backtest, hgrid]
    | some g => simp [perform_backtest, hgrid]
  · intro n f
    show pyRound (((0 : ℕ) : ℝ) / ((1 - overlap_factor n) * ((n : ℕ) : ℝ))) = 0
    rw [show (((0 : ℕ) : ℝ) / ((1 - overlap_factor n) * ((n : ℕ) : ℝ))) = 0 by
      push_cast
      exact zero_div _]
    exact pyRound_eq_of 0 0 (by norm_num) (by norm_num)

end Dashapp
